import Mathlib

/-!
Verification of the UmamusumeCardManager scraper core against its
natural-language specification.

The definitions below are a shallow embedding of the Python/JavaScript
source in `src/scraper/gametora_scraper.py` and
`src/updater/update_checker.py`:

* the level stepper `set_level` (the JS loop evaluated on the page) is
  modelled as a fuel-indexed loop over an abstract `StepperPage` giving
  the page's response to button clicks;
* the effect extractor `extract_effects` is modelled over the list of
  rendered effect-block texts, with the source's ordered pattern table
  and its restricted regular-expression dialect (`Label\s*(\d+%?)` and
  friends) implemented directly on character lists;
* the rarity/type parsers, the version comparator, the per-card retry
  loop, and the database-initialisation sequence are modelled as pure
  functions.
-/

namespace CardManager

/-! ## Character/string utilities shared by the embeddings -/

/-- Whitespace characters recognised by the JS `\s` class / `trim()`
(the subset that can occur in the scraped texts). -/
def isWsChar (c : Char) : Bool :=
  c = ' ' || c = '\t' || c = '\n' || c = '\r'

/-- Drop all leading whitespace characters (greedy `\s*`). -/
def dropWsL : List Char → List Char
  | [] => []
  | c :: cs => if isWsChar c then dropWsL cs else c :: cs

/-- Trim whitespace from both ends (JS `trim()` / Python `strip()`). -/
def trimChars (cs : List Char) : List Char :=
  dropWsL ((dropWsL cs.reverse).reverse)

/-- Match a literal character sequence as a prefix, returning the rest. -/
def stripLit : List Char → List Char → Option (List Char)
  | [], cs => some cs
  | _ :: _, [] => none
  | l :: ls, c :: cs => if c = l then stripLit ls cs else none

/-- Greedy span of ASCII digits (`\d+`): the digits and the rest. -/
def spanDigits : List Char → List Char × List Char
  | [] => ([], [])
  | c :: cs =>
    if c.isDigit then
      let p := spanDigits cs
      (c :: p.1, p.2)
    else ([], c :: cs)

/-- `containsL needle hay`: does `needle` occur as a contiguous substring
of `hay`?  (JS `String.prototype.includes` / Python `in`.) -/
def containsL (needle : List Char) : List Char → Bool
  | [] => (stripLit needle []).isSome
  | c :: cs => (stripLit needle (c :: cs)).isSome || containsL needle cs

/-- Replace `'\n'` by a space (the JS `text.split('\n').join(' ')`). -/
def nlToSpace (c : Char) : Char :=
  if c = '\n' then ' ' else c

/-! ## Level stepper (`set_level`, gametora_scraper.py lines 346-419)

The page-side JS navigates the rendered level selector.  The page is
abstracted as a `StepperPage`: which step buttons (`+5`/`+1`/`-5`/`-1`,
encoded by their integer step) exist, and what readout a click produces
from a given readout.  The loop is given explicit fuel; the JS loop has
none, so every termination statement is proved for all sufficiently
large fuel. -/

structure StepperPage where
  hasButton : Int → Bool
  clickResult : Int → Nat → Nat

/-- The button chosen by the loop body: the 5-step button when the
remaining distance is at least 5, else the 1-step button, signed by the
needed direction (source lines 380-388). -/
def chooseStep (current target : Nat) : Int :=
  if target < current then
    (if 5 ≤ current - target then -5 else -1)
  else
    (if 5 ≤ target - current then 5 else 1)

/-- The JS `while (currentLevel !== targetLevel)` loop.  Returns the
final readout and the number of clicks issued.  A click whose readout
does not change counts as issued (the stall case, source lines 395-410);
an absent button issues no click (source line 390). -/
def setLevelAux (pg : StepperPage) : Nat → Nat → Nat → Nat × Nat
  | 0, current, _ => (current, 0)
  | fuel + 1, current, target =>
    if current = target then (current, 0)
    else
      let s := chooseStep current target
      if pg.hasButton s then
        let nl := pg.clickResult s current
        if nl = current then (current, 1)
        else
          let p := setLevelAux pg fuel nl target
          (p.1, p.2 + 1)
      else (current, 0)

/-- `set_level`: final readout returned to the Python caller. -/
def set_level (pg : StepperPage) (fuel start target : Nat) : Nat :=
  (setLevelAux pg fuel start target).1

/-- Number of clicks issued by the same run (ghost instrumentation). -/
def set_level_clicks (pg : StepperPage) (fuel start target : Nat) : Nat :=
  (setLevelAux pg fuel start target).2

/-- A page supporting the full range: all four buttons exist and every
click moves the readout by exactly the button's step. -/
def fullPage : StepperPage where
  hasButton _ := true
  clickResult s n := ((n : Int) + s).toNat

/-- A page whose readout saturates at `cap` (and at 1 below): clicking
past the cap leaves the readout unchanged, which the loop detects as a
stall. -/
def cappedPage (cap : Nat) : StepperPage where
  hasButton _ := true
  clickResult s n := max 1 (min ((n : Int) + s).toNat cap)

/-- Exact click count of the greedy strategy over distance `d`:
one 5-click per full step of 5, one 1-click per remaining unit. -/
def clicksNeeded (d : Nat) : Nat := d / 5 + d % 5

/-- Distance between two levels. -/
def natDist (a b : Nat) : Nat := (a - b) + (b - a)

/-! ## Effect extractor (`extract_effects`, source lines 421-520)

Patterns of the source's table are sequences of tokens over the
restricted regex dialect actually used: a literal label, greedy
whitespace `\s*`, and a final capture group that is `(\d+)`, `(\d+%?)`
or `(.*)`.  Matching is deterministic for this dialect (backtracking
can never succeed where the greedy parse fails because whitespace,
digits and the `%`/`Lv` literals are disjoint character classes). -/

inductive Tok where
  | lit (s : String)
  | ws
  | capDigits
  | capDigitsPct
  | capRest
deriving Repr

structure EffPattern where
  toks : List Tok
  name : String
deriving Repr

/-- `Label\s*(\d+)` pattern. -/
def mkPat (label name : String) : EffPattern :=
  ⟨[Tok.lit label, Tok.ws, Tok.capDigits], name⟩

/-- `Label\s*(\d+%?)` pattern. -/
def mkPatPct (label name : String) : EffPattern :=
  ⟨[Tok.lit label, Tok.ws, Tok.capDigitsPct], name⟩

/-- The ordered pattern table of `extract_effects` (source lines
436-482), labels and normalized names verbatim. -/
def patterns : List EffPattern :=
  [ mkPat "Speed Bonus" "Speed Bonus",
    mkPat "Stamina Bonus" "Stamina Bonus",
    mkPat "Power Bonus" "Power Bonus",
    mkPat "Guts Bonus" "Guts Bonus",
    mkPat "Wisdom Bonus" "Wisdom Bonus",
    mkPat "Wit Bonus" "Wisdom Bonus",
    mkPat "Skill Pts Bonus" "Skill Pts Bonus",
    mkPat "Initial Speed" "Initial Speed",
    mkPat "Initial Stamina" "Initial Stamina",
    mkPat "Initial Power" "Initial Power",
    mkPat "Initial Guts" "Initial Guts",
    mkPat "Initial Wisdom" "Initial Wisdom",
    mkPat "Initial Wit" "Initial Wisdom",
    mkPatPct "Friendship Bonus" "Friendship Bonus",
    mkPatPct "Mood Effect" "Mood Effect",
    mkPatPct "Motivation Effect" "Motivation Effect",
    mkPatPct "Training Effectiveness" "Training Effectiveness",
    mkPatPct "Race Bonus" "Race Bonus",
    mkPatPct "Fan Bonus" "Fan Bonus",
    mkPatPct "Hint Rate" "Hint Rate",
    mkPatPct "Hint Frequency" "Hint Rate",
    mkPatPct "Hint Lv Up" "Hint Lv Up",
    ⟨[Tok.lit "Hint Levels", Tok.ws, Tok.lit "Lv", Tok.ws, Tok.capDigits],
      "Hint Lv Up"⟩,
    mkPat "Starting Bond" "Starting Bond",
    mkPat "Initial Friendship Gauge" "Starting Bond",
    mkPatPct "Specialty Rate" "Specialty Rate",
    mkPat "Specialty Priority" "Specialty Rate",
    mkPat "Race Status" "Race Status",
    mkPatPct "Energy Discount" "Energy Discount",
    mkPat "Wit Friendship Recovery" "Wisdom Friendship Recovery",
    ⟨[Tok.lit "Unique Effect", Tok.ws, Tok.capRest], "Unique Effect"⟩ ]

/-- Match a token sequence at the start of `cs`, returning the capture
(all table patterns end with their single capture group). -/
def matchToks : List Tok → List Char → Option String
  | [], _ => none
  | Tok.lit s :: rest, cs =>
    match stripLit s.toList cs with
    | some cs' => matchToks rest cs'
    | none => none
  | Tok.ws :: rest, cs => matchToks rest (dropWsL cs)
  | Tok.capDigits :: _, cs =>
    let p := spanDigits cs
    if p.1.isEmpty then none else some (String.mk p.1)
  | Tok.capDigitsPct :: _, cs =>
    let p := spanDigits cs
    if p.1.isEmpty then none
    else
      match p.2 with
      | '%' :: _ => some (String.mk (p.1 ++ ['%']))
      | _ => some (String.mk p.1)
  | Tok.capRest :: _, cs => some (String.mk cs)

/-- Unanchored search (JS `String.prototype.match`): try every start
position left to right. -/
def searchToks (toks : List Tok) : List Char → Option String
  | [] => matchToks toks []
  | c :: cs =>
    match matchToks toks (c :: cs) with
    | some v => some v
    | none => searchToks toks cs

structure Effect where
  name : String
  value : String
deriving DecidableEq, Repr

/-- `effects.push({name, value})` guarded by
`!effects.some(e => e.name === p.name)` (source lines 485-490): append
unless the normalized name is already present (first-seen wins). -/
def pushEffect (effs : List Effect) (nm : String) (v? : Option String) :
    List Effect :=
  match v? with
  | some v =>
    if effs.any (fun e => e.name == nm) then effs else effs ++ [⟨nm, v⟩]
  | none => effs

/-- Fold a guarded push over a rule list: `f` gives each rule's
normalized name, `g` its match result. -/
def pushFold (f : α → String) (g : α → Option String)
    (effs : List Effect) (xs : List α) : List Effect :=
  xs.foldl (fun e x => pushEffect e (f x) (g x)) effs

/-- The full text a block is matched against: `innerText.trim()` with
newlines joined by spaces (source lines 431-434). -/
def blockFullText (text : String) : List Char :=
  (trimChars text.toList).map nlToSpace

/-- Process one rendered effect block: skip blocks containing
"Unlocked at level", else run the whole pattern table against the
block's joined text (source lines 430-491). -/
def processBlock (effs : List Effect) (text : String) : List Effect :=
  if containsL "Unlocked at level".toList (trimChars text.toList) then effs
  else
    pushFold (fun p => p.name)
      (fun p => searchToks p.toks (blockFullText text)) effs patterns

/-- Primary extraction: all effect-marker blocks in order. -/
def extract_primary (blocks : List String) : List Effect :=
  blocks.foldl processBlock []

/-- The fallback table's five labels (source lines 498-504); for the
anchored `^(Label)\s*(\d+%?)$` patterns `match[1]` is the label itself,
so the label doubles as the stored name. -/
def simpleLabels : List String :=
  [ "Friendship Bonus", "Mood Effect", "Race Bonus", "Fan Bonus",
    "Training Effectiveness" ]

/-- Anchored match of `^(Label)\s*(\d+%?)$` against a trimmed line,
returning the value capture. -/
def matchSimple (label : String) (line : List Char) : Option String :=
  match stripLit label.toList line with
  | none => none
  | some rest =>
    let p := spanDigits (dropWsL rest)
    if p.1.isEmpty then none
    else
      match p.2 with
      | [] => some (String.mk p.1)
      | ['%'] => some (String.mk (p.1 ++ ['%']))
      | _ => none

/-- Process one line of the page's body text in the fallback scan
(source lines 506-514). -/
def processLine (effs : List Effect) (line : String) : List Effect :=
  pushFold id (fun label => matchSimple label (trimChars line.toList))
    effs simpleLabels

/-- Fallback extraction over the body-text lines. -/
def extract_fallback (lines : List String) : List Effect :=
  lines.foldl processLine []

/-- `extract_effects`: the primary method over the effect blocks; if it
produced zero effects, the fallback line scan appends to the (empty)
list (source lines 493-515). -/
def extract_effects (blocks : List String) (bodyLines : List String) :
    List Effect :=
  let effs := extract_primary blocks
  if effs.length = 0 then bodyLines.foldl processLine effs else effs

/-- The normalized names of an effect list. -/
def names (effs : List Effect) : List String :=
  effs.map Effect.name

/-! ## Key-level scrape loop (`scrape_effects_key_levels`, lines 522-536) -/

def KEY_LEVELS : List Nat := [1, 25, 40, 50]

/-- `[l for l in KEY_LEVELS if l <= max_level]`. -/
def levelsToScrape (max_level : Nat) : List Nat :=
  KEY_LEVELS.filter (fun l => l ≤ max_level)

structure EffRow where
  level : Nat
  ename : String
  evalue : String
deriving DecidableEq, Repr

/-- One iteration of the level loop: move the page to `target` (from
the page's current readout), extract, and key every row by the level
`set_level` actually reached. -/
def scrapeStep (pg : StepperPage) (fuel : Nat) (extract : Nat → List Effect)
    (st : Nat × List EffRow) (target : Nat) : Nat × List EffRow :=
  let actual := set_level pg fuel st.1 target
  (actual, st.2 ++ (extract actual).map (fun e => ⟨actual, e.name, e.value⟩))

/-- `scrape_effects_key_levels`: the rows inserted into
`support_effects` for one card, in order.  `start` is the page's
initial readout; `extract` gives the page's extraction result at each
settled level. -/
def scrape_effects_key_levels (pg : StepperPage) (fuel start max_level : Nat)
    (extract : Nat → List Effect) : List EffRow :=
  ((levelsToScrape max_level).foldl (scrapeStep pg fuel extract)
    (start, [])).2

/-- One iteration of the level loop, recording only the level actually
reached. -/
def actualStep (pg : StepperPage) (fuel : Nat)
    (st : Nat × List Nat) (target : Nat) : Nat × List Nat :=
  let a := set_level pg fuel st.1 target
  (a, st.2 ++ [a])

/-- The sequence of levels actually reached by the successive
`set_level` calls of the same loop. -/
def actualLevels (pg : StepperPage) (fuel start max_level : Nat) :
    List Nat :=
  ((levelsToScrape max_level).foldl (actualStep pg fuel) (start, [])).2

/-! ## Rarity and type parsing (source lines 29-44, 188-213) -/

def RARITY_MAP : List (String × String) :=
  [("rarity_01", "R"), ("rarity_02", "SR"), ("rarity_03", "SSR")]

def TYPE_MAP : List (String × String) :=
  [ ("obtain_00", "Speed"), ("obtain_01", "Stamina"),
    ("obtain_02", "Power"), ("obtain_03", "Guts"),
    ("obtain_04", "Wisdom"), ("obtain_05", "Friend"),
    ("obtain_06", "Group") ]

/-- `parse_rarity_from_image`: `None`/empty is falsy in Python and
defaults to "R"; otherwise the first map key occurring in the source
URL wins, default "R". -/
def parse_rarity_from_image : Option String → String
  | none => "R"
  | some src =>
    if src = "" then "R"
    else
      match RARITY_MAP.find? (fun kv => containsL kv.1.toList src.toList) with
      | some kv => kv.2
      | none => "R"

def parse_type_from_image : Option String → String
  | none => "Unknown"
  | some src =>
    if src = "" then "Unknown"
    else
      match TYPE_MAP.find? (fun kv => containsL kv.1.toList src.toList) with
      | some kv => kv.2
      | none => "Unknown"

/-- `get_max_level_for_rarity` (source lines 206-213). -/
def get_max_level_for_rarity (rarity : String) : Nat :=
  if rarity = "SSR" then 50
  else if rarity = "SR" then 45
  else 40

/-! ## Version comparator (`update_checker.py` lines 18-58)

`int()` is modelled on digit strings (the component shape of valid
semantic versions); any non-digit or empty component raises
`ValueError` in the source and yields `(0,0,0)` here as there. -/

/-- Parse a non-empty all-digit string, else `none`. -/
def parseNatDigits (cs : List Char) : Option Nat :=
  if cs.isEmpty then none
  else if cs.all Char.isDigit then
    some (cs.foldl (fun n c => n * 10 + (c.toNat - 48)) 0)
  else none

/-- Python `str.lstrip(c)`: drop every leading occurrence of `c`. -/
def lstripChar (c : Char) : List Char → List Char
  | [] => []
  | d :: ds => if d = c then lstripChar c ds else d :: ds

/-- Python `str.split(sep)` on a one-character separator. -/
def splitOnChar (sep : Char) : List Char → List (List Char)
  | [] => [[]]
  | c :: cs =>
    if c = sep then [] :: splitOnChar sep cs
    else
      match splitOnChar sep cs with
      | [] => [[c]]
      | p :: ps => (c :: p) :: ps

/-- Everything before the first occurrence of `sep`
(Python `s.split(sep)[0]`). -/
def takeUntilChar (sep : Char) : List Char → List Char
  | [] => []
  | c :: cs => if c = sep then [] else c :: takeUntilChar sep cs

/-- `parse_version`: strip leading `v`/`V`, cut at the first `-`,
split on `.`, pad to three components with "0", convert; a failing
conversion gives `(0, 0, 0)`. -/
def parse_version (s : String) : Nat × Nat × Nat :=
  let cs := lstripChar 'V' (lstripChar 'v' s.toList)
  let core := takeUntilChar '-' cs
  let parts := splitOnChar '.' core
  let parts := parts ++ List.replicate (3 - parts.length) ['0']
  match parseNatDigits (parts.getD 0 []),
        parseNatDigits (parts.getD 1 []),
        parseNatDigits (parts.getD 2 []) with
  | some a, some b, some c => (a, b, c)
  | _, _, _ => (0, 0, 0)

/-- Python tuple `<`: lexicographic on the three components. -/
def tupleLt : Nat × Nat × Nat → Nat × Nat × Nat → Bool
  | (a1, a2, a3), (b1, b2, b3) =>
    a1 < b1 || (a1 == b1 && (a2 < b2 || (a2 == b2 && a3 < b3)))

/-- `compare_versions`: -1 / 0 / 1 by tuple comparison. -/
def compare_versions (localVer remoteVer : String) : Int :=
  let l := parse_version localVer
  let r := parse_version remoteVer
  if tupleLt l r then -1
  else if tupleLt r l then 1
  else 0

/-! ## Title stripping and per-card retry loop (source lines 256-344) -/

/-- The alternatives of `re.sub(r'\s*\(SSR\)|\s*\(SR\)|\s*\(R\)', ...)`,
in the alternation order tried by the regex engine. -/
def rarityAlts : List String := ["(SSR)", "(SR)", "(R)"]

/-- Try the alternation at one position: greedy `\s*` then the first
alternative whose literal follows; returns the unmatched rest. -/
def matchRarityAt (cs : List Char) : Option (List Char) :=
  let ws := dropWsL cs
  match stripLit "(SSR)".toList ws with
  | some r => some r
  | none =>
    match stripLit "(SR)".toList ws with
    | some r => some r
    | none => stripLit "(R)".toList ws

/-- The `re.sub` scan: at each position replace a match by nothing and
continue after it, else keep the character and advance one.  Fuel is
the input length; every step consumes at least one character, so the
fuel never runs out when initialised to the length. -/
def subRarityF : Nat → List Char → List Char
  | 0, cs => cs
  | _, [] => []
  | fuel + 1, c :: cs =>
    match matchRarityAt (c :: cs) with
    | some rest => subRarityF fuel rest
    | none => c :: subRarityF fuel cs

def subRarity (cs : List Char) : List Char :=
  subRarityF cs.length cs

/-- Python `str.replace(pat, '')`: remove all non-overlapping
occurrences left to right (fuel as above). -/
def removeAllF (pat : List Char) : Nat → List Char → List Char
  | 0, cs => cs
  | _, [] => []
  | fuel + 1, c :: cs =>
    match stripLit pat (c :: cs) with
    | some rest => removeAllF pat fuel rest
    | none => c :: removeAllF pat fuel cs

def removeAll (pat cs : List Char) : List Char :=
  removeAllF pat cs.length cs

/-- Name derivation of `scrape_support_card` (source lines 288-289):
strip the parenthesised rarity markers, remove "Support Card", trim. -/
def deriveName (title : String) : String :=
  String.mk (trimChars (removeAll "Support Card".toList
    (subRarity title.toList)))

/-- Outcome of one retry attempt, as far as the control flow observes
it: the attempt raises before the title is parsed, or the page loads
yielding a title, after which the rest of the attempt body either
completes (`restOk = true`) or raises (`restOk = false`). -/
inductive Attempt where
  | throws
  | loads (title : String) (restOk : Bool)

/-- The `for attempt in range(max_retries)` loop of
`scrape_support_card`, driven by the list of per-attempt outcomes
(`[a1, a2, a3]` for the source's `max_retries = 3`).  Returns the
function's result (`none` models Python's implicit `None` if the list
is empty) and the number of attempts consumed.  An empty derived name
returns `False` from inside the `try` at once; an exception retries
only while attempts remain. -/
def scrape_support_card : List Attempt → Option Bool × Nat
  | [] => (none, 0)
  | Attempt.loads title restOk :: rest =>
    if deriveName title = "" then (some false, 1)
    else if restOk then (some true, 1)
    else
      match rest with
      | [] => (some false, 1)
      | r :: rs =>
        let p := scrape_support_card (r :: rs)
        (p.1, p.2 + 1)
  | Attempt.throws :: rest =>
    match rest with
    | [] => (some false, 1)
    | r :: rs =>
      let p := scrape_support_card (r :: rs)
      (p.1, p.2 + 1)

/-! ## Database initialisation (`init_database`, lines 51-154, and
`run_scraper`, lines 609-623)

The database is a map from table name to its rows when the table
exists.  Row contents are opaque lists of column strings. -/

def Table := List (List String)

def DB := String → Option Table

/-- `DROP TABLE IF EXISTS t`. -/
def dbDrop (db : DB) (t : String) : DB :=
  fun n => if n = t then none else db n

/-- `CREATE TABLE t (...)` (always preceded by a drop in the source). -/
def dbCreate (db : DB) (t : String) : DB :=
  fun n => if n = t then some [] else db n

/-- `CREATE TABLE IF NOT EXISTS t (...)`: existing rows kept. -/
def dbCreateIfNotExists (db : DB) (t : String) : DB :=
  fun n =>
    if n = t then
      match db t with
      | some rows => some rows
      | none => some []
    else db n

/-- `init_database`: the exact drop/create sequence of the source. -/
def init_database (db : DB) : DB :=
  let db := dbDrop db "event_skills"
  let db := dbDrop db "support_events"
  let db := dbDrop db "support_hints"
  let db := dbDrop db "support_effects"
  let db := dbDrop db "support_cards"
  let db := dbCreate db "support_cards"
  let db := dbCreate db "support_effects"
  let db := dbCreate db "support_hints"
  let db := dbCreate db "support_events"
  let db := dbCreate db "event_skills"
  let db := dbCreateIfNotExists db "owned_cards"
  let db := dbCreateIfNotExists db "user_decks"
  dbCreateIfNotExists db "deck_slots"

/-- `run_scraper` begins by calling `init_database()` and only then
runs the scraping batch (abstracted as `rest`) over the store. -/
def run_scraper (rest : DB → DB) (db : DB) : DB :=
  rest (init_database db)

/-- Saturation of an accumulator with respect to one rendered block:
either the block is skipped by the "Unlocked at level" guard, or every
pattern of the table that matches the block's joined text already has
its normalized name recorded.  A saturated accumulator is left
unchanged by `processBlock`. -/
def blockSat (effs : List Effect) (b : String) : Prop :=
  containsL "Unlocked at level".toList (trimChars b.toList) = true
  ∨ ∀ p ∈ patterns,
      (searchToks p.toks (blockFullText b)).isSome → p.name ∈ names effs

/-! ## Theorems -/

/-- C4 counterexample: the claim quantifies over every block whose text
merely *contains* "Wit Bonus 10".  The block
"Wisdom Bonus 5 Wit Bonus 10" contains that substring, yet the earlier
"Wisdom Bonus" pattern of the ordered table matches first and the
name-dedup guard then blocks the alias pattern, so the extracted value
is "5", not "10". -/
theorem extract_effects_wit_alias_contains_cex :
    containsL "Wit Bonus 10".toList
        "Wisdom Bonus 5 Wit Bonus 10".toList = true
    ∧ extract_effects ["Wisdom Bonus 5 Wit Bonus 10"] []
        = [⟨"Wisdom Bonus", "5"⟩]
    ∧ ¬ ((⟨"Wisdom Bonus", "10"⟩ : Effect)
        ∈ extract_effects ["Wisdom Bonus 5 Wit Bonus 10"] []) :=
  ⟨by decide, by decide, by decide⟩

/-- C4 (amended to blocks whose text is the quoted text itself): a
block "Wit Bonus 10" and a block "Wisdom Bonus 10" both normalize to
the single entry `{name := "Wisdom Bonus", value := "10"}`, and a block
"Hint Frequency 30" normalizes to the name "Hint Rate". -/
theorem extract_effects_wit_alias :
    extract_effects ["Wit Bonus 10"] [] = [⟨"Wisdom Bonus", "10"⟩]
    ∧ extract_effects ["Wisdom Bonus 10"] [] = [⟨"Wisdom Bonus", "10"⟩]
    ∧ extract_effects ["Hint Frequency 30"] [] = [⟨"Hint Rate", "30"⟩] :=
  ⟨by decide, by decide, by decide⟩

/-- C5: the fallback line scan is consulted exactly when the primary
class-marker extraction produced zero effects; a non-empty primary
result is returned as-is, and a zero-effect primary result yields the
fallback's result rather than an error. -/
theorem extract_effects_fallback_iff :
    ∀ (blocks bodyLines : List String),
      (extract_primary blocks ≠ [] →
        extract_effects blocks bodyLines = extract_primary blocks)
      ∧ (extract_primary blocks = [] →
        extract_effects blocks bodyLines = extract_fallback bodyLines) := by
  intro blocks bodyLines
  constructor
  · intro h
    show (if (extract_primary blocks).length = 0 then
        bodyLines.foldl processLine (extract_primary blocks)
      else extract_primary blocks) = extract_primary blocks
    rw [if_neg (fun hl => h (List.length_eq_zero.mp hl))]
  · intro h
    show (if (extract_primary blocks).length = 0 then
        bodyLines.foldl processLine (extract_primary blocks)
      else extract_primary blocks) = extract_fallback bodyLines
    rw [h]
    rfl

/-- C5 witness: a primary hit suppresses the fallback; an empty block
set falls back to the line scan. -/
theorem extract_effects_fallback_iff_witness :
    extract_effects ["Speed Bonus 20"] ["Race Bonus 5"]
      = [⟨"Speed Bonus", "20"⟩]
    ∧ extract_effects [] ["Race Bonus 5"] = [⟨"Race Bonus", "5"⟩] :=
  ⟨((extract_effects_fallback_iff ["Speed Bonus 20"] ["Race Bonus 5"]).1
      (by decide)).trans (by decide),
   ((extract_effects_fallback_iff [] ["Race Bonus 5"]).2
      (by decide)).trans (by decide)⟩

/-- C7: the rarity parser is total and always lands in {R, SR, SSR},
with default "R" both for an absent source and for a source URL in
which no rarity-map key occurs; and the rarity-to-max-level map sends
SSR to 50, SR to 45 and R to 40, so every max level is one of
{40, 45, 50}. -/
theorem rarity_parser_total :
    (∀ src : Option String,
      parse_rarity_from_image src = "R"
      ∨ parse_rarity_from_image src = "SR"
      ∨ parse_rarity_from_image src = "SSR")
    ∧ get_max_level_for_rarity "SSR" = 50
    ∧ get_max_level_for_rarity "SR" = 45
    ∧ get_max_level_for_rarity "R" = 40
    ∧ (∀ r : String,
      get_max_level_for_rarity r = 40
      ∨ get_max_level_for_rarity r = 45
      ∨ get_max_level_for_rarity r = 50)
    ∧ parse_rarity_from_image none = "R"
    ∧ (∀ src : String,
      (∀ kv ∈ RARITY_MAP, containsL kv.1.toList src.toList = false) →
      parse_rarity_from_image (some src) = "R") := by
  refine ⟨?_, rfl, rfl, rfl, ?_, rfl, ?_⟩
  · intro src
    cases src with
    | none => exact Or.inl rfl
    | some s =>
      by_cases hs : s = ""
      · simp [parse_rarity_from_image, hs]
      · cases hf : RARITY_MAP.find?
            (fun kv => containsL kv.1.toList s.toList) with
        | none =>
          have hval : parse_rarity_from_image (some s) = "R" := by
            simp only [parse_rarity_from_image]
            rw [if_neg hs, hf]
          rw [hval]
          exact Or.inl rfl
        | some kv =>
          have hval : parse_rarity_from_image (some s) = kv.2 := by
            simp only [parse_rarity_from_image]
            rw [if_neg hs, hf]
          have hm := List.mem_of_find?_eq_some hf
          rw [hval]
          simp only [RARITY_MAP, List.mem_cons,
            List.not_mem_nil, or_false] at hm
          rcases hm with h | h | h <;> rw [h] <;> simp
  · intro r
    unfold get_max_level_for_rarity
    split
    · exact Or.inr (Or.inr rfl)
    · split
      · exact Or.inr (Or.inl rfl)
      · exact Or.inl rfl
  · intro src h
    by_cases hs : src = ""
    · simp [parse_rarity_from_image, hs]
    · have hf : RARITY_MAP.find?
          (fun kv => containsL kv.1.toList src.toList) = none := by
        rw [List.find?_eq_none]
        intro kv hkv
        rw [h kv hkv]
        exact Bool.false_ne_true
      simp only [parse_rarity_from_image]
      rw [if_neg hs, hf]

/-- C7 witness: a source URL containing none of the rarity keys parses
to the default "R". -/
theorem rarity_parser_total_witness :
    parse_rarity_from_image (some "nomatch") = "R" :=
  rarity_parser_total.2.2.2.2.2.2 "nomatch" (by decide)

/-- C9: an empty derived name returns failure from inside the first
attempt that observes it, without consuming the remaining retry
attempts; any other per-attempt exception is retried, up to the
source's three attempts in total, before failure; and the title
stripping behaves as documented on a degenerate and a regular title. -/
theorem scrape_card_retry_semantics :
    (∀ (t : String) (b : Bool) (rest : List Attempt), deriveName t = "" →
      scrape_support_card (Attempt.loads t b :: rest) = (some false, 1))
    ∧ scrape_support_card [Attempt.throws, Attempt.throws, Attempt.throws]
        = (some false, 3)
    ∧ (∀ t : String, deriveName t ≠ "" →
      scrape_support_card
          [Attempt.throws, Attempt.throws, Attempt.loads t true]
        = (some true, 3))
    ∧ deriveName "(SSR) Support Card" = ""
    ∧ deriveName "Special Week (SSR) Support Card" = "Special Week" := by
  refine ⟨?_, by decide, ?_, by decide, by decide⟩
  · intro t b rest h
    unfold scrape_support_card
    rw [if_pos h]
  · intro t h
    have h1 : scrape_support_card [Attempt.loads t true] = (some true, 1) := by
      unfold scrape_support_card
      rw [if_neg h]
      rfl
    have h2 : scrape_support_card [Attempt.throws, Attempt.loads t true]
        = (some true, 2) := by
      unfold scrape_support_card
      simp only [h1]
    unfold scrape_support_card
    simp only [h2]

/-- C9 witness: the degenerate title fails in one attempt even with
retries available; two exceptions followed by a good load succeed after
exactly three attempts. -/
theorem scrape_card_retry_semantics_witness :
    scrape_support_card [Attempt.loads "(SSR) Support Card" true]
      = (some false, 1)
    ∧ scrape_support_card [Attempt.throws, Attempt.throws,
        Attempt.loads "Special Week (SSR) Support Card" true]
      = (some true, 3) :=
  ⟨scrape_card_retry_semantics.1 "(SSR) Support Card" true [] (by decide),
   scrape_card_retry_semantics.2.2.1 "Special Week (SSR) Support Card"
     (by decide)⟩

/-- C10: every run of the batch entry point first runs
`init_database`, which unconditionally drops and recreates the five
scraped-data tables (erasing all previously scraped rows) while the
three user-owned tables are created only if absent and keep their
existing rows. -/
theorem init_database_frame :
    ∀ (db : DB) (rest : DB → DB),
      run_scraper rest db = rest (init_database db)
      ∧ init_database db "support_cards" = some []
      ∧ init_database db "support_effects" = some []
      ∧ init_database db "support_hints" = some []
      ∧ init_database db "support_events" = some []
      ∧ init_database db "event_skills" = some []
      ∧ init_database db "owned_cards" = some ((db "owned_cards").getD [])
      ∧ init_database db "user_decks" = some ((db "user_decks").getD [])
      ∧ init_database db "deck_slots" = some ((db "deck_slots").getD []) := by
  intro db rest
  refine ⟨rfl, rfl, rfl, rfl, rfl, rfl, ?_, ?_, ?_⟩
  · show (match db "owned_cards" with
      | some rows => some rows
      | none => some []) = some ((db "owned_cards").getD [])
    cases db "owned_cards" <;> rfl
  · show (match db "user_decks" with
      | some rows => some rows
      | none => some []) = some ((db "user_decks").getD [])
    cases db "user_decks" <;> rfl
  · show (match db "deck_slots" with
      | some rows => some rows
      | none => some []) = some ((db "deck_slots").getD [])
    cases db "deck_slots" <;> rfl

/-- On a page where every click moves the readout by exactly the
button's step, the loop climbing towards a target above the current
level reaches it in exactly `clicksNeeded` clicks. -/
theorem setLevelAux_full_up (pg : StepperPage)
    (hb : ∀ s, pg.hasButton s = true)
    (hc : ∀ s n, pg.clickResult s n = ((n : Int) + s).toNat) :
    ∀ fuel current target, current ≤ target → target - current ≤ fuel →
      setLevelAux pg fuel current target
        = (target, clicksNeeded (target - current)) := by
  intro fuel
  induction fuel with
  | zero =>
    intro current target hle hf
    have h : current = target := by omega
    subst h
    simp [setLevelAux, clicksNeeded]
  | succ n ih =>
    intro current target hle hf
    by_cases heq : current = target
    · subst heq
      simp [setLevelAux, clicksNeeded]
    · have hlt : current < target := lt_of_le_of_ne hle heq
      rw [setLevelAux, if_neg heq]
      have hns : ¬ target < current := by omega
      by_cases h5 : 5 ≤ target - current
      · have hcs : chooseStep current target = 5 := by
          unfold chooseStep
          rw [if_neg hns, if_pos h5]
        simp only [hcs, hb, hc, if_true]
        have hnl : ((current : Int) + 5).toNat = current + 5 := by omega
        rw [hnl, if_neg (by omega : ¬ current + 5 = current)]
        have hrec := ih (current + 5) target (by omega) (by omega)
        show ((setLevelAux pg n (current + 5) target).1,
          (setLevelAux pg n (current + 5) target).2 + 1)
          = (target, clicksNeeded (target - current))
        rw [hrec]
        have : clicksNeeded (target - (current + 5)) + 1
            = clicksNeeded (target - current) := by
          unfold clicksNeeded
          omega
        rw [this]
      · have hcs : chooseStep current target = 1 := by
          unfold chooseStep
          rw [if_neg hns, if_neg h5]
        simp only [hcs, hb, hc, if_true]
        have hnl : ((current : Int) + 1).toNat = current + 1 := by omega
        rw [hnl, if_neg (by omega : ¬ current + 1 = current)]
        have hrec := ih (current + 1) target (by omega) (by omega)
        show ((setLevelAux pg n (current + 1) target).1,
          (setLevelAux pg n (current + 1) target).2 + 1)
          = (target, clicksNeeded (target - current))
        rw [hrec]
        have : clicksNeeded (target - (current + 1)) + 1
            = clicksNeeded (target - current) := by
          unfold clicksNeeded
          omega
        rw [this]

/-- Downward counterpart of `setLevelAux_full_up`. -/
theorem setLevelAux_full_down (pg : StepperPage)
    (hb : ∀ s, pg.hasButton s = true)
    (hc : ∀ s n, pg.clickResult s n = ((n : Int) + s).toNat) :
    ∀ fuel current target, target ≤ current → current - target ≤ fuel →
      setLevelAux pg fuel current target
        = (target, clicksNeeded (current - target)) := by
  intro fuel
  induction fuel with
  | zero =>
    intro current target hle hf
    have h : current = target := by omega
    subst h
    simp [setLevelAux, clicksNeeded]
  | succ n ih =>
    intro current target hle hf
    by_cases heq : current = target
    · subst heq
      simp [setLevelAux, clicksNeeded]
    · have hlt : target < current := lt_of_le_of_ne hle (Ne.symm heq)
      rw [setLevelAux, if_neg heq]
      by_cases h5 : 5 ≤ current - target
      · have hcs : chooseStep current target = -5 := by
          unfold chooseStep
          rw [if_pos hlt, if_pos h5]
        simp only [hcs, hb, hc, if_true]
        have hnl : ((current : Int) + (-5)).toNat = current - 5 := by omega
        rw [hnl, if_neg (by omega : ¬ current - 5 = current)]
        have hrec := ih (current - 5) target (by omega) (by omega)
        show ((setLevelAux pg n (current - 5) target).1,
          (setLevelAux pg n (current - 5) target).2 + 1)
          = (target, clicksNeeded (current - target))
        rw [hrec]
        have : clicksNeeded (current - 5 - target) + 1
            = clicksNeeded (current - target) := by
          unfold clicksNeeded
          omega
        rw [this]
      · have hcs : chooseStep current target = -1 := by
          unfold chooseStep
          rw [if_pos hlt, if_neg h5]
        simp only [hcs, hb, hc, if_true]
        have hnl : ((current : Int) + (-1)).toNat = current - 1 := by omega
        rw [hnl, if_neg (by omega : ¬ current - 1 = current)]
        have hrec := ih (current - 1) target (by omega) (by omega)
        show ((setLevelAux pg n (current - 1) target).1,
          (setLevelAux pg n (current - 1) target).2 + 1)
          = (target, clicksNeeded (current - target))
        rw [hrec]
        have : clicksNeeded (current - 1 - target) + 1
            = clicksNeeded (current - target) := by
          unfold clicksNeeded
          omega
        rw [this]

/-- C1 counterexample: on the full-range page, going from level 1 to
level 4 converges but issues 3 clicks, while the claimed bound
`ceil(|delta|/5) + (1 if delta mod 5 != 0 else 0)` evaluates to
`(3 + 4) / 5 + 1 = 2`.  The greedy loop issues one `+1` click per
remaining unit, not at most one. -/
theorem set_level_click_bound_cex :
    set_level fullPage 54 1 4 = 4
    ∧ set_level_clicks fullPage 54 1 4 = 3
    ∧ ¬ (set_level_clicks fullPage 54 1 4 ≤ (natDist 1 4 + 4) / 5 + 1) :=
  ⟨by decide, by decide, by decide⟩

/-- C1 (amended click bound): for any page whose four stepper buttons
all exist and move the readout by exactly their step, and any start and
target in [1, 50], the greedy loop terminates with the readout exactly
at the target and issues exactly
`|delta| / 5 + |delta| % 5` clicks (which is at most `|delta|`). -/
theorem set_level_full_converges (pg : StepperPage)
    (start target fuel : Nat)
    (hb : ∀ s, pg.hasButton s = true)
    (hc : ∀ s n, pg.clickResult s n = ((n : Int) + s).toNat)
    (hs1 : 1 ≤ start) (hs2 : start ≤ 50)
    (ht1 : 1 ≤ target) (ht2 : target ≤ 50)
    (hf : 50 ≤ fuel) :
    set_level pg fuel start target = target
    ∧ set_level_clicks pg fuel start target
        = natDist start target / 5 + natDist start target % 5
    ∧ natDist start target / 5 + natDist start target % 5
        ≤ natDist start target := by
  rcases le_total start target with hle | hle
  · have h := setLevelAux_full_up pg hb hc fuel start target hle (by omega)
    unfold set_level set_level_clicks
    rw [h]
    unfold clicksNeeded natDist
    refine ⟨rfl, by omega, by omega⟩
  · have h := setLevelAux_full_down pg hb hc fuel start target hle (by omega)
    unfold set_level set_level_clicks
    rw [h]
    unfold clicksNeeded natDist
    refine ⟨rfl, by omega, by omega⟩

/-- C1 witness: the full-range page, start 1, target 50: the loop
reaches 50 in `49 / 5 + 49 % 5 = 13` clicks. -/
theorem set_level_full_converges_witness :
    set_level fullPage 50 1 50 = 50
    ∧ set_level_clicks fullPage 50 1 50 = 13 := by
  have h := set_level_full_converges fullPage 1 50 50
    (fun _ => rfl) (fun _ _ => rfl)
    (by decide) (by decide) (by decide) (by decide) (by decide)
  exact ⟨h.1, h.2.1.trans (by decide)⟩

/-- A page saturating at `cap` leaves the loop by stall detection: from
any start in [1, cap], requesting a target above the cap terminates
(for every sufficient fuel) with the readout at the cap. -/
theorem setLevelAux_capped (cap target : Nat) (hct : cap < target) :
    ∀ fuel current, 1 ≤ current → current ≤ cap → cap - current < fuel →
      (setLevelAux (cappedPage cap) fuel current target).1 = cap := by
  intro fuel
  induction fuel with
  | zero =>
    intro current h1 h2 h3
    omega
  | succ n ih =>
    intro current h1 h2 h3
    have heq : ¬ current = target := by omega
    rw [setLevelAux, if_neg heq]
    have hns : ¬ target < current := by omega
    have hs : chooseStep current target = 5 ∨ chooseStep current target = 1 := by
      unfold chooseStep
      rw [if_neg hns]
      by_cases h5 : 5 ≤ target - current
      · rw [if_pos h5]
        exact Or.inl rfl
      · rw [if_neg h5]
        exact Or.inr rfl
    by_cases hcc : current = cap
    · subst hcc
      rcases hs with hs | hs <;>
        simp only [hs, cappedPage, if_true] <;>
        rw [if_pos (by omega : max 1 (min ((current : Int) + _).toNat current)
          = current)]
    · have hlt : current < cap := by omega
      rcases hs with hs | hs
      · simp only [hs, cappedPage, if_true]
        have hnl : max 1 (min (((current : Int) + 5).toNat) cap)
            = min (current + 5) cap := by
          have h5' : ((current : Int) + 5).toNat = current + 5 := by omega
          rw [h5']
          omega
        rw [hnl, if_neg (by omega : ¬ min (current + 5) cap = current)]
        show (setLevelAux (cappedPage cap) n (min (current + 5) cap) target).1
          = cap
        exact ih (min (current + 5) cap) (by omega) (by omega) (by omega)
      · simp only [hs, cappedPage, if_true]
        have hnl : max 1 (min (((current : Int) + 1).toNat) cap)
            = min (current + 1) cap := by
          have h1' : ((current : Int) + 1).toNat = current + 1 := by omega
          rw [h1']
          omega
        rw [hnl, if_neg (by omega : ¬ min (current + 1) cap = current)]
        show (setLevelAux (cappedPage cap) n (min (current + 1) cap) target).1
          = cap
        exact ih (min (current + 1) cap) (by omega) (by omega) (by omega)

/-- C2: on a page whose readout saturates at a cap below the requested
target, `set_level` terminates — the same result for every fuel above
the cap, where the unfuelled JS loop exits by stall detection — and
returns the level actually reached, namely the cap. -/
theorem set_level_capped_returns_cap (cap start target fuel : Nat)
    (h1 : 1 ≤ start) (h2 : start ≤ cap) (h3 : cap < target)
    (h4 : cap < fuel) :
    set_level (cappedPage cap) fuel start target = cap :=
  setLevelAux_capped cap target h3 fuel start h1 h2 (by omega)

/-- C2 witness: requesting level 50 on a page capped at 40 from level
30 returns 40. -/
theorem set_level_capped_returns_cap_witness :
    set_level (cappedPage 40) 50 30 50 = 40 :=
  set_level_capped_returns_cap 40 30 50 50
    (by decide) (by decide) (by decide) (by decide)

theorem names_append (l1 l2 : List Effect) :
    names (l1 ++ l2) = names l1 ++ names l2 :=
  List.map_append _ _ _

theorem mem_names_pushEffect {a : String} (effs : List Effect) (nm : String)
    (v? : Option String) (h : a ∈ names effs) :
    a ∈ names (pushEffect effs nm v?) := by
  cases v? with
  | none => exact h
  | some v =>
    simp only [pushEffect]
    by_cases hc : effs.any (fun e => e.name == nm)
    · rw [if_pos hc]
      exact h
    · rw [if_neg hc, names_append]
      exact List.mem_append_left _ h

theorem nodup_names_pushEffect (effs : List Effect) (nm : String)
    (v? : Option String) (h : (names effs).Nodup) :
    (names (pushEffect effs nm v?)).Nodup := by
  cases v? with
  | none => exact h
  | some v =>
    simp only [pushEffect]
    by_cases hc : effs.any (fun e => e.name == nm)
    · rw [if_pos hc]
      exact h
    · rw [if_neg hc, names_append]
      refine List.Nodup.append h (List.nodup_singleton _) ?_
      intro x hx hx2
      have hxnm : x = nm := by
        have hn : names [(⟨nm, v⟩ : Effect)] = [nm] := rfl
        rw [hn] at hx2
        exact List.mem_singleton.mp hx2
      subst hxnm
      rcases List.mem_map.mp hx with ⟨e, he, hne⟩
      exact hc (List.any_eq_true.mpr ⟨e, he, by rw [beq_iff_eq]; exact hne⟩)

theorem pushEffect_eq_of_mem (effs : List Effect) (nm : String)
    (v? : Option String) (h : nm ∈ names effs) :
    pushEffect effs nm v? = effs := by
  cases v? with
  | none => rfl
  | some v =>
    simp only [pushEffect]
    rw [if_pos]
    rcases List.mem_map.mp h with ⟨e, he, hne⟩
    exact List.any_eq_true.mpr ⟨e, he, by rw [beq_iff_eq]; exact hne⟩

theorem mem_names_pushEffect_self (effs : List Effect) (nm v : String) :
    nm ∈ names (pushEffect effs nm (some v)) := by
  simp only [pushEffect]
  by_cases hc : effs.any (fun e => e.name == nm)
  · rw [if_pos hc]
    rcases List.any_eq_true.mp hc with ⟨e, he, hpe⟩
    exact List.mem_map.mpr ⟨e, he, beq_iff_eq.mp hpe⟩
  · rw [if_neg hc, names_append]
    exact List.mem_append_right _ (List.mem_singleton.mpr rfl)

theorem pushFold_cons {α : Type} (f : α → String) (g : α → Option String)
    (effs : List Effect) (x : α) (xs : List α) :
    pushFold f g effs (x :: xs) = pushFold f g (pushEffect effs (f x) (g x)) xs :=
  rfl

theorem mem_names_pushFold {α : Type} (f : α → String) (g : α → Option String) :
    ∀ (xs : List α) (effs : List Effect) (a : String),
      a ∈ names effs → a ∈ names (pushFold f g effs xs) := by
  intro xs
  induction xs with
  | nil => intro effs a h; exact h
  | cons x xs ih =>
    intro effs a h
    rw [pushFold_cons]
    exact ih _ a (mem_names_pushEffect _ _ _ h)

theorem nodup_names_pushFold {α : Type} (f : α → String) (g : α → Option String) :
    ∀ (xs : List α) (effs : List Effect),
      (names effs).Nodup → (names (pushFold f g effs xs)).Nodup := by
  intro xs
  induction xs with
  | nil => intro effs h; exact h
  | cons x xs ih =>
    intro effs h
    rw [pushFold_cons]
    exact ih _ (nodup_names_pushEffect _ _ _ h)

theorem pushFold_eq_of_sat {α : Type} (f : α → String) (g : α → Option String) :
    ∀ (xs : List α) (effs : List Effect),
      (∀ x ∈ xs, (g x).isSome = true → f x ∈ names effs) →
      pushFold f g effs xs = effs := by
  intro xs
  induction xs with
  | nil => intro effs _; rfl
  | cons x xs ih =>
    intro effs h
    rw [pushFold_cons]
    have hx : pushEffect effs (f x) (g x) = effs := by
      cases hg : g x with
      | none => rfl
      | some v =>
        exact pushEffect_eq_of_mem _ _ _
          (h x (List.mem_cons_self x xs) (by rw [hg]; rfl))
    rw [hx]
    exact ih effs (fun y hy => h y (List.mem_cons_of_mem x hy))

theorem sat_names_pushFold {α : Type} (f : α → String) (g : α → Option String) :
    ∀ (xs : List α) (effs : List Effect) (x : α),
      x ∈ xs → (g x).isSome = true → f x ∈ names (pushFold f g effs xs) := by
  intro xs
  induction xs with
  | nil => intro effs x hx _; exact absurd hx (List.not_mem_nil x)
  | cons y ys ih =>
    intro effs x hx hg
    rw [pushFold_cons]
    rcases List.mem_cons.mp hx with h | h
    · subst h
      cases hgv : g x with
      | none =>
        rw [hgv] at hg
        exact absurd hg (by simp)
      | some v =>
        apply mem_names_pushFold
        exact mem_names_pushEffect_self effs (f x) v
    · exact ih _ x h hg

theorem mem_names_processBlock (effs : List Effect) (b : String) (a : String)
    (h : a ∈ names effs) : a ∈ names (processBlock effs b) := by
  unfold processBlock
  split
  · exact h
  · exact mem_names_pushFold _ _ patterns effs a h

theorem nodup_names_processBlock (effs : List Effect) (b : String)
    (h : (names effs).Nodup) : (names (processBlock effs b)).Nodup := by
  unfold processBlock
  split
  · exact h
  · exact nodup_names_pushFold _ _ patterns effs h

theorem processBlock_eq_of_blockSat (effs : List Effect) (b : String)
    (h : blockSat effs b) : processBlock effs b = effs := by
  unfold processBlock
  by_cases hg : containsL "Unlocked at level".toList (trimChars b.toList) = true
  · rw [if_pos hg]
  · rw [if_neg hg]
    rcases h with h | h
    · exact absurd h hg
    · exact pushFold_eq_of_sat _ _ patterns effs h

theorem blockSat_processBlock (effs : List Effect) (b : String) :
    blockSat (processBlock effs b) b := by
  by_cases hg : containsL "Unlocked at level".toList (trimChars b.toList) = true
  · exact Or.inl hg
  · right
    intro p hp hsome
    unfold processBlock
    rw [if_neg hg]
    exact sat_names_pushFold _ _ patterns effs p hp hsome

theorem blockSat_mono (e1 e2 : List Effect) (b : String)
    (hsub : ∀ a, a ∈ names e1 → a ∈ names e2) (h : blockSat e1 b) :
    blockSat e2 b := by
  rcases h with h | h
  · exact Or.inl h
  · exact Or.inr (fun p hp hs => hsub _ (h p hp hs))

theorem mem_names_foldBlocks :
    ∀ (blocks : List String) (effs : List Effect) (a : String),
      a ∈ names effs → a ∈ names (blocks.foldl processBlock effs) := by
  intro blocks
  induction blocks with
  | nil => intro effs a h; exact h
  | cons x xs ih =>
    intro effs a h
    rw [List.foldl_cons]
    exact ih _ a (mem_names_processBlock _ _ a h)

theorem nodup_names_foldBlocks :
    ∀ (blocks : List String) (effs : List Effect),
      (names effs).Nodup → (names (blocks.foldl processBlock effs)).Nodup := by
  intro blocks
  induction blocks with
  | nil => intro effs h; exact h
  | cons x xs ih =>
    intro effs h
    rw [List.foldl_cons]
    exact ih _ (nodup_names_processBlock _ _ h)

theorem blockSat_foldBlocks :
    ∀ (blocks : List String) (effs : List Effect) (b : String),
      b ∈ blocks → blockSat (blocks.foldl processBlock effs) b := by
  intro blocks
  induction blocks with
  | nil => intro effs b hb; exact absurd hb (List.not_mem_nil b)
  | cons x xs ih =>
    intro effs b hb
    rw [List.foldl_cons]
    rcases List.mem_cons.mp hb with h | h
    · subst h
      exact blockSat_mono _ _ _ (fun a => mem_names_foldBlocks xs _ a)
        (blockSat_processBlock effs b)
    · exact ih _ b h

theorem foldBlocks_eq_of_sat :
    ∀ (blocks : List String) (effs : List Effect),
      (∀ b ∈ blocks, blockSat effs b) →
      blocks.foldl processBlock effs = effs := by
  intro blocks
  induction blocks with
  | nil => intro effs _; rfl
  | cons x xs ih =>
    intro effs h
    rw [List.foldl_cons,
      processBlock_eq_of_blockSat _ _ (h x (List.mem_cons_self x xs))]
    exact ih effs (fun b hb => h b (List.mem_cons_of_mem x hb))

/-- Running the primary pattern-table extraction over the same block
set twice adds nothing: every pattern that matches some block already
has its name recorded after the first pass, and the per-name guard then
blocks every further push. -/
theorem extract_primary_idem (blocks : List String) :
    extract_primary (blocks ++ blocks) = extract_primary blocks := by
  unfold extract_primary
  rw [List.foldl_append]
  exact foldBlocks_eq_of_sat blocks _
    (fun b hb => blockSat_foldBlocks blocks [] b hb)

theorem nodup_names_foldLines :
    ∀ (lines : List String) (effs : List Effect),
      (names effs).Nodup → (names (lines.foldl processLine effs)).Nodup := by
  intro lines
  induction lines with
  | nil => intro effs h; exact h
  | cons x xs ih =>
    intro effs h
    rw [List.foldl_cons]
    exact ih _ (nodup_names_pushFold _ _ simpleLabels effs h)

/-- C3: the list returned by `extract_effects` never contains two
entries with the same normalized name (the per-name guard makes the
first-seen entry win), and running the extraction over the same block
set twice yields the same result as running it once. -/
theorem extract_effects_nodup_idem :
    (∀ (blocks bodyLines : List String),
      (names (extract_effects blocks bodyLines)).Nodup)
    ∧ (∀ (blocks bodyLines : List String),
      extract_effects (blocks ++ blocks) bodyLines
        = extract_effects blocks bodyLines) := by
  constructor
  · intro blocks bodyLines
    show (names (if (extract_primary blocks).length = 0 then
        bodyLines.foldl processLine (extract_primary blocks)
      else extract_primary blocks)).Nodup
    by_cases h : (extract_primary blocks).length = 0
    · rw [if_pos h]
      exact nodup_names_foldLines bodyLines _
        (nodup_names_foldBlocks blocks [] List.nodup_nil)
    · rw [if_neg h]
      exact nodup_names_foldBlocks blocks [] List.nodup_nil
  · intro blocks bodyLines
    show (if (extract_primary (blocks ++ blocks)).length = 0 then
        bodyLines.foldl processLine (extract_primary (blocks ++ blocks))
      else extract_primary (blocks ++ blocks))
      = extract_effects blocks bodyLines
    rw [extract_primary_idem]
    rfl

theorem scrape_fold_rows {pg : StepperPage} {fuel : Nat}
    {ex : Nat → List Effect} :
    ∀ (ls : List Nat) (cur : Nat) (accR : List EffRow) (accL : List Nat),
      accR = accL.flatMap (fun a => (ex a).map (fun e => EffRow.mk a e.name e.value)) →
      (ls.foldl (scrapeStep pg fuel ex) (cur, accR)).2
        = ((ls.foldl (actualStep pg fuel) (cur, accL)).2).flatMap
            (fun a => (ex a).map (fun e => EffRow.mk a e.name e.value)) := by
  intro ls
  induction ls with
  | nil => intro cur accR accL h; exact h
  | cons t ts ih =>
    intro cur accR accL h
    rw [List.foldl_cons, List.foldl_cons]
    simp only [scrapeStep, actualStep]
    apply ih
    rw [h, List.flatMap_append]
    simp

/-- C6: the effect-scraping loop visits exactly the key levels
{1, 25, 40, 50} that do not exceed `max_level`, and every persisted row
is keyed by the level the stepper actually reached (the rows are the
concatenation, over the sequence of actual levels, of that level's
extracted pairs).  On a page capped at 40, requesting the SSR key
levels {1, 25, 40, 50} produces actual levels [1, 25, 40, 40] — the
stalled request is persisted under 40, not the requested 50, and the
loop returns normally rather than raising. -/
theorem scrape_rows_keyed_by_actual :
    (∀ m, levelsToScrape m = KEY_LEVELS.filter (fun l => l ≤ m))
    ∧ (∀ (pg : StepperPage) (fuel start m : Nat) (ex : Nat → List Effect),
        scrape_effects_key_levels pg fuel start m ex
          = (actualLevels pg fuel start m).flatMap
              (fun a => (ex a).map (fun e => EffRow.mk a e.name e.value)))
    ∧ levelsToScrape 50 = [1, 25, 40, 50]
    ∧ levelsToScrape 45 = [1, 25, 40]
    ∧ levelsToScrape 40 = [1, 25, 40]
    ∧ actualLevels (cappedPage 40) 60 30 50 = [1, 25, 40, 40] := by
  refine ⟨fun m => rfl, ?_, by decide, by decide, by decide, by decide⟩
  intro pg fuel start m ex
  unfold scrape_effects_key_levels actualLevels
  exact scrape_fold_rows (levelsToScrape m) start [] [] rfl

theorem tupleLt_irrefl (x : Nat × Nat × Nat) : tupleLt x x = false := by
  obtain ⟨a, b, c⟩ := x
  simp [tupleLt]

theorem tupleLt_trans (x y z : Nat × Nat × Nat)
    (h1 : tupleLt x y = true) (h2 : tupleLt y z = true) :
    tupleLt x z = true := by
  obtain ⟨a1, a2, a3⟩ := x
  obtain ⟨b1, b2, b3⟩ := y
  obtain ⟨c1, c2, c3⟩ := z
  simp only [tupleLt, Bool.or_eq_true, Bool.and_eq_true, decide_eq_true_eq,
    beq_iff_eq] at h1 h2 ⊢
  omega

theorem tupleLt_total (x y : Nat × Nat × Nat) :
    tupleLt x y = true ∨ tupleLt y x = true ∨ x = y := by
  obtain ⟨a1, a2, a3⟩ := x
  obtain ⟨b1, b2, b3⟩ := y
  simp only [tupleLt, Bool.or_eq_true, Bool.and_eq_true, decide_eq_true_eq,
    beq_iff_eq, Prod.mk.injEq]
  omega

theorem compare_versions_eq (a b : String) :
    compare_versions a b =
      if tupleLt (parse_version a) (parse_version b) then -1
      else if tupleLt (parse_version b) (parse_version a) then 1
      else 0 :=
  rfl

/-- C8: the version comparator orders "1.2.3" before "1.2.4", ignores a
leading "v" and a hyphenated suffix, and the comparison result is
exactly the strict total order induced by Python's lexicographic tuple
comparison on the parsed (major, minor, patch) triples — which is
irreflexive, transitive and total. -/
theorem compare_versions_order :
    compare_versions "1.2.3" "1.2.4" < 0
    ∧ compare_versions "v1.0.0" "1.0.0" = 0
    ∧ compare_versions "2.0.0-beta" "2.0.0" = 0
    ∧ (∀ a b : String,
        (compare_versions a b = -1
          ↔ tupleLt (parse_version a) (parse_version b) = true)
        ∧ (compare_versions a b = 0 ↔ parse_version a = parse_version b)
        ∧ (compare_versions a b = 1
          ↔ tupleLt (parse_version b) (parse_version a) = true))
    ∧ (∀ x : Nat × Nat × Nat, tupleLt x x = false)
    ∧ (∀ x y z : Nat × Nat × Nat,
        tupleLt x y = true → tupleLt y z = true → tupleLt x z = true)
    ∧ (∀ x y : Nat × Nat × Nat,
        tupleLt x y = true ∨ tupleLt y x = true ∨ x = y) := by
  refine ⟨by decide, by decide, by decide, ?_,
    tupleLt_irrefl, tupleLt_trans, tupleLt_total⟩
  intro a b
  rw [compare_versions_eq]
  by_cases h1 : tupleLt (parse_version a) (parse_version b) = true
  · rw [if_pos h1]
    refine ⟨⟨fun _ => h1, fun _ => rfl⟩, ?_, ?_⟩
    · constructor
      · intro h0
        exact absurd h0 (by decide)
      · intro heq
        rw [heq, tupleLt_irrefl] at h1
        exact absurd h1 (by decide)
    · constructor
      · intro h0
        exact absurd h0 (by decide)
      · intro hlt
        have hx := tupleLt_trans _ _ _ h1 hlt
        rw [tupleLt_irrefl] at hx
        exact absurd hx (by decide)
  · rw [if_neg h1]
    by_cases h2 : tupleLt (parse_version b) (parse_version a) = true
    · rw [if_pos h2]
      refine ⟨?_, ?_, ⟨fun _ => h2, fun _ => rfl⟩⟩
      · constructor
        · intro h0
          exact absurd h0 (by decide)
        · intro h0
          exact absurd h0 h1
      · constructor
        · intro h0
          exact absurd h0 (by decide)
        · intro heq
          rw [heq, tupleLt_irrefl] at h2
          exact absurd h2 (by decide)
    · rw [if_neg h2]
      have heq : parse_version a = parse_version b := by
        rcases tupleLt_total (parse_version a) (parse_version b) with h | h | h
        · exact absurd h h1
        · exact absurd h h2
        · exact h
      refine ⟨?_, ⟨fun _ => heq, fun _ => rfl⟩, ?_⟩
      · constructor
        · intro h0
          exact absurd h0 (by decide)
        · intro h0
          exact absurd h0 h1
      · constructor
        · intro h0
          exact absurd h0 (by decide)
        · intro h0
          exact absurd h0 h2

/-- C8 witness: transitivity of the induced order instantiated at
concrete triples. -/
theorem compare_versions_order_witness : tupleLt (0, 0, 0) (0, 0, 2) = true :=
  compare_versions_order.2.2.2.2.2.1 (0, 0, 0) (0, 0, 1) (0, 0, 2)
    (by decide) (by decide)

end CardManager
